import Mathlib

/-!
Verification of the indicative-style field validation engine.

The development shallowly embeds the repository's modules:
`src/Validator/index.js`, `src/Validations/index.js`, `src/Modes/index.js`.
The `Parser`, `Messages` and `Raw` modules are required from the sources but
are not part of the repository snapshot; they are modelled from the
specification and marked as such in their doc comments.

Javascript values are embedded as the inductive type `JSValue`
(`undefined`, `null`, strings, integers, booleans, arrays, objects).
Promise executors in this code base call `resolve`/`reject` without
awaiting anything, so each check settles deterministically and a run is
embedded as a pure function.  Settlement is not simultaneous, though: a
missing-predicate `Error` rejects its promise synchronously at creation,
whereas a predicate failure propagates through a `.then(...).catch(...)`
chain and rejects two microtask hops later — so `Q.all`'s
first-settled-wins race prefers configuration `Error`s over
earlier-declared validation failures (see `Validator.validate`).
-/

set_option autoImplicit false

/-- Embedding of the JavaScript values the validator manipulates.
Objects are assoc lists in insertion order, numbers are modelled as integers
(no claim exercises non-integral numbers). -/
inductive JSValue where
  | undef : JSValue
  | null : JSValue
  | str : String → JSValue
  | num : Int → JSValue
  | bool : Bool → JSValue
  | arr : List JSValue → JSValue
  | obj : List (String × JSValue) → JSValue

/-- Splits a list of characters on a separator character (used to embed the
string-splitting the source performs; implemented structurally so concrete
runs reduce by `rfl`). -/
def splitCharsOn (sep : Char) : List Char → List Char → List String
  | [], acc => [String.mk acc.reverse]
  | c :: rest, acc =>
    if c = sep then String.mk acc.reverse :: splitCharsOn sep rest []
    else splitCharsOn sep rest (c :: acc)

/-- Splits a string on a separator character. -/
def splitStr (sep : Char) (s : String) : List String :=
  splitCharsOn sep s.data []

/-- Decimal digits of a natural number, most significant first.
Fueled recursion so that concrete evaluations reduce definitionally. -/
def natDigits (fuel n : Nat) : List Char :=
  match fuel with
  | 0 => []
  | fuel + 1 =>
    if n < 10 then [Char.ofNat (48 + n)]
    else natDigits fuel (n / 10) ++ [Char.ofNat (48 + n % 10)]

/-- Decimal representation of a natural number. -/
def natToString (n : Nat) : String :=
  String.mk (natDigits (n + 1) n)

/-- Decimal representation of an integer (JavaScript `String(number)` for
integral numbers). -/
def intToString (n : Int) : String :=
  if n < 0 then "-" ++ natToString n.natAbs else natToString n.natAbs

/-- Parses a string of decimal digits as a natural number, `none` if the
string is empty or holds a non-digit. Used to index arrays by path segment
as lodash `_.get` does. -/
def parseNat (s : String) : Option Nat :=
  let rec go : List Char → Nat → Option Nat
    | [], acc => some acc
    | c :: rest, acc =>
      if c.isDigit then go rest (acc * 10 + (c.toNat - 48)) else none
  match s.data with
  | [] => none
  | cs => go cs 0

namespace JSValue

mutual

/-- JavaScript `String(value)` coercion for the embedded values.
Array elements are joined with commas (JS `Array.prototype.toString`),
objects print as `[object Object]`. -/
def jsToString : JSValue → String
  | undef => "undefined"
  | null => "null"
  | str s => s
  | num n => intToString n
  | bool b => if b then "true" else "false"
  | arr xs => String.intercalate "," (jsToStringList xs)
  | obj _ => "[object Object]"

/-- String coercion of each element of a list of values. -/
def jsToStringList : List JSValue → List String
  | [] => []
  | v :: vs => jsToString v :: jsToStringList vs

end

/-- JavaScript truthiness of an embedded value (`!!value`). -/
def jsTruthy : JSValue → Bool
  | undef => false
  | null => false
  | str s => !s.isEmpty
  | num n => n ≠ 0
  | bool b => b
  | arr _ => true
  | obj _ => true

/-- One step of lodash `_.get`: reads a single path segment off a value.
Objects are searched by key (first match), arrays are indexed when the
segment is a decimal number; any miss yields `undefined`. -/
def getProp : JSValue → String → JSValue
  | obj fields, key =>
    match fields.find? (fun kv => kv.1 = key) with
    | some kv => kv.2
    | none => undef
  | arr xs, key =>
    match parseNat key with
    | some i => xs.getD i undef
    | none => undef
  | _, _ => undef

/-- lodash `_.get(data, field)` with a dotted string path. -/
def getValue (data : JSValue) (field : String) : JSValue :=
  (splitStr '.' field).foldl getProp data

end JSValue

example : JSValue.getValue (.obj [("person", .arr [.obj [("firstname", .null)]])])
    "person.0.firstname" = .null := rfl

example : JSValue.getValue (.obj [("age", .num 22)]) "age" = .num 22 := rfl

example : JSValue.getValue (.obj []) "age" = .undef := rfl

/-- A parsed rule: canonical name plus the ordered argument strings extracted
from the rule specification (`ParsedRule` of the spec's data model). -/
structure ParsedRule where
  name : String
  args : List String
  deriving DecidableEq, Repr

/-- The two process-wide emptiness modes of `src/Modes/index.js`. -/
inductive Mode where
  | normal
  | strict
  deriving DecidableEq, Repr

namespace Modes

/-- `Modes.set` of `src/Modes/index.js`: accepts only the two known mode
names; any other argument logs a warning and leaves the mode unchanged. -/
def set (mode : String) (current : Mode) : Mode :=
  if mode = "normal" then .normal
  else if mode = "strict" then .strict
  else current

end Modes

/-! ### lodash helpers

The engine leans on lodash's `_.camelCase` for predicate lookup.  The
relevant behaviour (ASCII rule names) is embedded below: a string is cut
into words at non-alphanumeric characters, at lower-to-upper case
transitions and at letter/digit boundaries; the first word is lowercased
and the remaining words are capitalised. -/

/-- A character that can belong to a word (ASCII letters and digits). -/
def isWordChar (c : Char) : Bool :=
  c.isAlpha || c.isDigit

/-- Whether a new word starts at `c` when the previous word character was
`p`: case transition or letter/digit boundary. -/
def breaksWord (p c : Char) : Bool :=
  (p.isLower && c.isUpper) || (p.isDigit && c.isAlpha) || (p.isAlpha && c.isDigit)

/-- Word splitter behind the `_.camelCase` model. `cur` holds the current
word in reverse. -/
def splitWordsAux : List Char → List Char → List (List Char)
  | [], [] => []
  | [], cur => [cur.reverse]
  | c :: rest, [] =>
    if isWordChar c then splitWordsAux rest [c] else splitWordsAux rest []
  | c :: rest, p :: ps =>
    if isWordChar c then
      (if breaksWord p c then (p :: ps).reverse :: splitWordsAux rest [c]
       else splitWordsAux rest (c :: p :: ps))
    else (p :: ps).reverse :: splitWordsAux rest []

/-- The words of a string, per the `_.camelCase` model. -/
def splitWords (s : String) : List (List Char) :=
  splitWordsAux s.data []

/-- Uppercases the first character of a word. -/
def upperFirstChars : List Char → List Char
  | [] => []
  | c :: rest => c.toUpper :: rest

/-- Model of lodash `_.camelCase` for ASCII rule names: first word fully
lowercased, later words lowercased then capitalised. -/
def camelCase (s : String) : String :=
  match splitWords s with
  | [] => ""
  | w :: ws =>
    String.mk (w.map Char.toLower ++
      (ws.map (fun x => upperFirstChars (x.map Char.toLower))).flatten)

example : camelCase "is_phone" = "isPhone" := rfl
example : camelCase "isPhone" = "isPhone" := rfl
example : camelCase "alpha_numeric" = "alphaNumeric" := rfl
example : camelCase "alphaNumeric" = "alphaNumeric" := rfl
example : camelCase "alpha" = "alpha" := rfl
example : camelCase "required" = "required" := rfl

namespace Parser

/-- Modelled from the spec: the repository's `src/Parser` module is not in
the source snapshot.  §4.1: each rule element is split on the **first** `:`
into a name and an args blob; the blob splits on `,`; no `:` means no
args. -/
def parseRule (item : String) : ParsedRule :=
  match splitStr ':' item with
  | [] => ⟨"", []⟩
  | [name] => ⟨name, []⟩
  | name :: rest => ⟨name, splitStr ',' (String.intercalate ":" rest)⟩

/-- Modelled from the spec: `Parser.parse` (§4.1), absent from the source
snapshot.  A pipe-delimited rule string becomes the ordered list of parsed
rules. -/
def parse (ruleDef : String) : List ParsedRule :=
  (splitStr '|' ruleDef).map parseRule

example : parse "required" = [⟨"required", []⟩] := rfl
example : parse "required|between:4,10" =
    [⟨"required", []⟩, ⟨"between", ["4", "10"]⟩] := rfl
example : parse "date_format:2016-10-10T10:10:10" =
    [⟨"date_format", ["2016-10-10T10:10:10"]⟩] := rfl
example : parse "alpha|alphaNumeric" = [⟨"alpha", []⟩, ⟨"alphaNumeric", []⟩] := rfl

/-- Modelled from the spec: the wildcard expansion of `src/Parser`'s
`transformRules` (§4.2), absent from the source snapshot.  Walks the path
segments; at a `*` segment the data value reached so far is enumerated
(array indices or object keys, in natural order) and expansion recurses;
a wildcard over a missing or non-collection value yields no entries. -/
def expandSegs (data : JSValue) (pre : List String) : List String → List (List String)
  | [] => [pre]
  | seg :: rest =>
    if seg = "*" then
      match pre.foldl JSValue.getProp data with
      | .arr xs =>
        (List.range xs.length).flatMap fun i => expandSegs data (pre ++ [natToString i]) rest
      | .obj fields =>
        fields.flatMap fun kv => expandSegs data (pre ++ [kv.1]) rest
      | _ => []
    else expandSegs data (pre ++ [seg]) rest

/-- Modelled from the spec: `Parser.transformRules(data, rules)` (§4.2),
absent from the source snapshot.  Expands every field path of the rule
specification against the data into concrete dotted paths, in
field-declaration order then natural index order, pairing each concrete
path with the parsed rules of its pattern. -/
def transformRules (data : JSValue) (rules : List (String × String)) :
    List (String × List ParsedRule) :=
  rules.flatMap fun fieldRules =>
    (expandSegs data [] (splitStr '.' fieldRules.1)).map
      fun segs => (String.intercalate "." segs, parse fieldRules.2)

example : transformRules (.obj [("person", .arr [.obj [("firstname", .null)]])])
    [("person.*.firstname", "required")] =
    [("person.0.firstname", [⟨"required", []⟩])] := rfl

example : transformRules (.obj []) [("username", "required")] =
    [("username", [⟨"required", []⟩])] := rfl

example : transformRules (.obj [("email", .arr [.str "a", .str "b"])])
    [("email.*", "email")] =
    [("email.0", [⟨"email", []⟩]), ("email.1", [⟨"email", []⟩])] := rfl

end Parser

namespace Messages

/-- Modelled from the spec: `Messages.make` of the repository's
`src/Messages` module, absent from the source snapshot.  §4.3: the custom
message table is consulted with the key `field.rule` first, then `rule`,
and otherwise the generic fallback `"<rule> validation failed on <field>"`
is produced (the extensible default-message table and the template/callback
message forms are not exercised by any claim and are not modelled). -/
def make (messages : List (String × String)) (field validation : String) : String :=
  match messages.lookup (field ++ "." ++ validation) with
  | some m => m
  | none =>
    match messages.lookup validation with
    | some m => m
    | none => validation ++ " validation failed on " ++ field

end Messages

example : Messages.make [] "email" "required" = "required validation failed on email" := rfl
example : Messages.make [("age.required", "Age is required")] "age" "required" =
    "Age is required" := rfl

namespace Raw

/-- Modelled from the spec: the `src/Raw` predicate library is an external
collaborator absent from the source snapshot (§1, §2); behaviour is
reconstructed from `test/raw.spec.js`.  `empty` holds for `undefined`,
`null`, the empty string, the empty array and the empty object. -/
def empty : JSValue → Bool
  | .undef => true
  | .null => true
  | .str s => s.isEmpty
  | .arr xs => xs.isEmpty
  | .obj fields => fields.isEmpty
  | _ => false

/-- Modelled from the spec: `Raw.alpha`, reconstructed from the predicate
library's regex check `^[a-zA-Z]+$` applied to the string coercion of the
input. -/
def alpha (v : JSValue) : Bool :=
  let s := JSValue.jsToString v
  !s.isEmpty && s.data.all Char.isAlpha

/-- Modelled from the spec: `Raw.alphaNumeric`, the regex check
`^[a-zA-Z0-9]+$` applied to the string coercion of the input (tests show
the number `123` passes via coercion). -/
def alphaNumeric (v : JSValue) : Bool :=
  let s := JSValue.jsToString v
  !s.isEmpty && s.data.all (fun c => c.isAlpha || c.isDigit)

/-- Modelled from the spec: `Raw.array`, true exactly for array values. -/
def array : JSValue → Bool
  | .arr _ => true
  | _ => false

/-- Modelled from the spec: numeric coercion used by the comparison
predicates; integers pass through, numeric strings parse, booleans and
`null` coerce, anything else is NaN (`none`). -/
def toNumber : JSValue → Option Int
  | .num n => some n
  | .str s =>
    match parseNat s with
    | some n => some (n : Int)
    | none => none
  | .bool b => some (if b then 1 else 0)
  | .null => some 0
  | _ => none

/-- Modelled from the spec: `Raw.numeric`, true for values that coerce to a
number. -/
def numeric (v : JSValue) : Bool :=
  (toNumber v).isSome

/-- Modelled from the spec: `Raw.between(input, min, max)`, the strict
two-sided comparison `input > min && input < max` under numeric coercion. -/
def between (input low high : JSValue) : Bool :=
  match toNumber input, toNumber low, toNumber high with
  | some x, some a, some b => a < x && x < b
  | _, _, _ => false

end Raw

/-- JavaScript strict equality `===` on the embedded values: primitive
values compare by value and type; two container values fetched from
distinct paths of a data tree are distinct references, hence unequal
(the engine only ever compares values read from two different fields). -/
def jsStrictEq : JSValue → JSValue → Bool
  | .undef, .undef => true
  | .null, .null => true
  | .str a, .str b => a = b
  | .num a, .num b => a = b
  | .bool a, .bool b => a = b
  | _, _ => false

namespace Validations

/-- `hasRule` of `src/Validations/index.js` (lines 67–75): whether the
field's rule list contains one of the given rule names. -/
def hasRule (validations : List ParsedRule) (rules : List String) : Bool :=
  (validations.filter (fun v => rules.contains v.name)).length > 0

/-- `skippable` of `src/Validations/index.js` (lines 26–33): in strict mode
a value is skippable iff it is `undefined`; in normal mode strings are
skippable iff empty, and otherwise a value is skippable iff `undefined`, or
`null` while the field is nullable. -/
def skippable (mode : Mode) (value : JSValue) (nullable : Bool) : Bool :=
  match mode with
  | .strict => match value with
    | .undef => true
    | _ => false
  | .normal =>
    match value with
    | .str s => s.isEmpty
    | .undef => true
    | .null => nullable
    | _ => false

/-- `getSize` of `src/Validations/index.js` (lines 44–58), restricted to the
two-argument form used by `range` (no file rule, so the filesystem branch
is unreachable): the numeric value itself under a numeric rule, the length
of an array, else the length of the string coercion. -/
def getSize (fieldValue : JSValue) (hasNumericRule : Bool) : JSValue :=
  if Raw.numeric fieldValue && hasNumericRule then fieldValue
  else match fieldValue with
    | .arr xs => .num xs.length
    | v => .num (JSValue.jsToString v).length

/-- The numeric related validation rules (`numericRules`, line 83). -/
def numericRules : List String := ["numeric", "integer"]

/-- `Validations.alpha` (lines 210–223): skippable check, then
`Raw.alpha(fieldValue) && fieldValue !== null`. -/
def alpha (mode : Mode) (data : JSValue) (field _message : String)
    (_args : List JSValue) (validations : List ParsedRule) : Except String String :=
  let fieldValue := data.getValue field
  if skippable mode fieldValue (hasRule validations ["nullable"]) then
    .ok "validation skipped"
  else if Raw.alpha fieldValue && !(jsStrictEq fieldValue .null) then
    .ok "validation passed"
  else .error _message

/-- `Validations.alphaNumeric` (lines 237–250). -/
def alphaNumeric (mode : Mode) (data : JSValue) (field _message : String)
    (_args : List JSValue) (validations : List ParsedRule) : Except String String :=
  let fieldValue := data.getValue field
  if skippable mode fieldValue (hasRule validations ["nullable"]) then
    .ok "validation skipped"
  else if Raw.alphaNumeric fieldValue && !(jsStrictEq fieldValue .null) then
    .ok "validation passed"
  else .error _message

/-- `Validations.array` (lines 264–277). -/
def array (mode : Mode) (data : JSValue) (field _message : String)
    (_args : List JSValue) (validations : List ParsedRule) : Except String String :=
  let fieldValue := data.getValue field
  if skippable mode fieldValue (hasRule validations ["nullable"]) then
    .ok "validation skipped"
  else if Raw.array fieldValue then .ok "validation passed"
  else .error _message

/-- `Validations.required` (lines 738–747): no skippable check; passes iff
the field value is not `Raw.empty`. -/
def required (_mode : Mode) (data : JSValue) (field _message : String)
    (_args : List JSValue) (_validations : List ParsedRule) : Except String String :=
  if !(Raw.empty (data.getValue field)) then .ok "validation passed"
  else .error _message

/-- `Validations.nullable` (lines 1537–1542): always resolves skipped. -/
def nullable (_mode : Mode) (_data : JSValue) (_field _message : String)
    (_args : List JSValue) (_validations : List ParsedRule) : Except String String :=
  .ok "validation skipped"

/-- `Validations.same` (lines 994–1015): first resolves skipped whenever the
targeted field's value is falsy, then the generic skippable check, and only
then the strict-equality comparison. -/
def same (mode : Mode) (data : JSValue) (field _message : String)
    (args : List JSValue) (validations : List ParsedRule) : Except String String :=
  let targetedFieldValue := data.getValue (JSValue.jsToString (args.getD 0 .undef))
  if !targetedFieldValue.jsTruthy then .ok "validation skipped"
  else
    let fieldValue := data.getValue field
    if skippable mode fieldValue (hasRule validations ["nullable"]) then
      .ok "validation skipped"
    else if jsStrictEq targetedFieldValue fieldValue then .ok "validation passed"
    else .error _message

/-- `Validations.different` (lines 1029–1050): same structure as `same`
with the comparison negated. -/
def different (mode : Mode) (data : JSValue) (field _message : String)
    (args : List JSValue) (validations : List ParsedRule) : Except String String :=
  let targetedFieldValue := data.getValue (JSValue.jsToString (args.getD 0 .undef))
  if !targetedFieldValue.jsTruthy then .ok "validation skipped"
  else
    let fieldValue := data.getValue field
    if skippable mode fieldValue (hasRule validations ["nullable"]) then
      .ok "validation skipped"
    else if !(jsStrictEq targetedFieldValue fieldValue) then .ok "validation passed"
    else .error _message

/-- `Validations.range` (lines 1063–1084): rejects with the fixed bounds
message when either bound is falsy, **before** the skippable check; then
the usual skip test and the size comparison. -/
def range (mode : Mode) (data : JSValue) (field _message : String)
    (args : List JSValue) (validations : List ParsedRule) : Except String String :=
  let low := args.getD 0 .undef
  let high := args.getD 1 .undef
  if !low.jsTruthy || !high.jsTruthy then
    .error "min and max values are required for range validation"
  else
    let fieldValue := data.getValue field
    if skippable mode fieldValue (hasRule validations ["nullable"]) then
      .ok "validation skipped"
    else
      let isNumeric := hasRule validations numericRules
      if Raw.between (getSize fieldValue isNumeric) low high then
        .ok "validation passed"
      else .error _message

/-- `Validations.between = Validations.range` (line 1571). -/
def between := @range

end Validations

/-- The signature shared by every validation predicate: mode (the process
mode the source reads through `Modes.get`), data, field path, resolved
message, arguments, sibling rule list; the promise settles with a sentinel
string or rejects with the message. -/
def PredFn : Type :=
  Mode → JSValue → String → String → List JSValue → List ParsedRule → Except String String

/-- The mutable store of validation methods (`Validations` module object);
`extend` prepends, mirroring property assignment for lookup purposes. -/
def Registry : Type := List (String × PredFn)

/-- Property read on the validations store (`_.get(Validations, key)`). -/
def lookupReg : Registry → String → Option PredFn
  | [], _ => none
  | kf :: rest, key => if key = kf.1 then some kf.2 else lookupReg rest key

/-- The built-in validations store, holding the modelled subset of
`src/Validations/index.js` (the members exercised by the claims), keyed by
the source property names; `between` aliases `range` (line 1571). -/
def builtinValidations : Registry :=
  [("alpha", Validations.alpha),
   ("alphaNumeric", Validations.alphaNumeric),
   ("array", Validations.array),
   ("required", Validations.required),
   ("nullable", Validations.nullable),
   ("same", Validations.same),
   ("different", Validations.different),
   ("range", Validations.range),
   ("between", Validations.between)]

namespace Validator

/-- `Validator.implicitRules` (`src/Validator/index.js` line 59). -/
def implicitRules : List String :=
  ["required", "required_if", "required_when", "required_with_any",
   "required_with_all", "required_without_any", "required_without_all"]

/-- `Validator.getRule` (lines 126–132). -/
def getRule (validations : List ParsedRule) (rules : List String) : List ParsedRule :=
  validations.filter (fun v => rules.contains v.name)

/-- `Validator.hasRule` (lines 114–117). -/
def hasRule (validations : List ParsedRule) (rules : List String) : Bool :=
  (getRule validations rules).length > 0

/-- `Validator.isImplicit` (lines 67–69). -/
def isImplicit (validations : List ParsedRule) : Bool :=
  hasRule validations implicitRules

/-- `Validator.skippable` (lines 95–105).  In strict mode the source tests
`typeof value === 'undefined'` where `value` is an **undeclared**
identifier (the field value is read into `fieldValue` only on the next
line), so the strict branch is always true; the transcription preserves
this behaviour.  In normal mode: strings are skippable iff empty,
otherwise skippable iff `undefined`, or `null` while the rule list has
`nullable`. -/
def skippable (mode : Mode) (data : JSValue) (field : String)
    (validations : List ParsedRule) : Bool :=
  match mode with
  | .strict => true
  | .normal =>
    let fieldValue := data.getValue field
    let nullable := hasRule validations ["nullable"]
    match fieldValue with
    | .str s => s.isEmpty
    | .undef => true
    | .null => nullable
    | _ => false

/-- `Validator.isValidatable` (lines 79–82). -/
def isValidatable (mode : Mode) (data : JSValue) (field : String)
    (validations : List ParsedRule) : Bool :=
  isImplicit validations || !skippable mode data field validations

/-- `Validator.getValidationMethod` (lines 302–306): looks the rule up in
the validations store under the camel-cased name; a miss yields the
function that throws `<validation> is not defined as a validation`
(`none` here; the caller turns it into the configuration error). -/
def getValidationMethod (reg : Registry) (validation : String) : Option PredFn :=
  lookupReg reg (camelCase validation)

/-- `Validator.extend` (lines 192–198): stores the method under the given
name **verbatim** (`Validations[name] = method`; the snake-cased default
message registration touches only the message table). -/
def extend (reg : Registry) (name : String) (method : PredFn) : Registry :=
  (name, method) :: reg

end Validator

/-- How a single per-field-per-rule promise settles: resolved with a
sentinel, rejected with a `{field, validation, message}` object, or
rejected with the `Error` thrown for an unregistered rule. -/
inductive RuleOutcome where
  | resolved : String → RuleOutcome
  | failed : String → String → String → RuleOutcome
  | cfgError : String → RuleOutcome
  deriving DecidableEq, Repr

/-- A rejection reason as surfaced to the caller: either a
`ValidationError` object (field, rule, message) or the `Error` of a
configuration failure — the two are distinguishable by shape. -/
inductive Reason where
  | vErr : String → String → String → Reason
  | cfg : String → Reason
  deriving DecidableEq, Repr

/-- Reads the rejection reason off a settled result (the mapping step of
`_settleAllPromises`, lines 39–50). -/
def reasonOf : RuleOutcome → Option Reason
  | .resolved _ => none
  | .failed f v m => some (.vErr f v m)
  | .cfgError m => some (.cfg m)

/-- Whether a rejection reason is the configuration `Error` shape. -/
def Reason.isCfg : Reason → Bool
  | .vErr _ _ _ => false
  | .cfg _ => true

/-- The rejection reason of a check that settles **synchronously**: a
missing predicate throws inside the `Q.Promise` executor
(`Validator/index.js:283`, thrower from line 303), so that promise is
already rejected before `Q.all` attaches its handlers.  Skips and passes
never reject, and predicate failures settle later (see `failedReasonOf`). -/
def cfgReasonOf : RuleOutcome → Option Reason
  | .cfgError m => some (.cfg m)
  | _ => none

/-- The rejection reason of a check that settles **two microtask hops
late**: a predicate rejection travels through the native promise's
`.then(resolve).catch(...)` chain before the wrapping
`reject({field, validation, message})` at `Validator/index.js:286` fires.
Every configuration `Error` therefore settles strictly earlier than every
predicate failure. -/
def failedReasonOf : RuleOutcome → Option Reason
  | .failed f v m => some (.vErr f v m)
  | _ => none

namespace Validator

/-- `Validator.runValidationOnField` (lines 274–289): the check is resolved
as skipped when the field is not validatable (the predicate, or the
missing-predicate thrower, is never invoked); otherwise a missing
predicate throws the configuration `Error`, and a predicate rejection is
wrapped into `{field, validation, message}`. -/
def runValidationOnField (reg : Registry) (mode : Mode) (data : JSValue)
    (field validation : String) (messages : List (String × String))
    (args : List JSValue) (validations : List ParsedRule) : RuleOutcome :=
  let message := Messages.make messages field validation
  if !isValidatable mode data field validations then .resolved "validation skipped"
  else
    match getValidationMethod reg validation with
    | none => .cfgError (validation ++ " is not defined as a validation")
    | some f =>
      match f mode data field message args validations with
      | .ok s => .resolved s
      | .error m => .failed field validation m

/-- `Validator.validateField` (lines 252–260): the settled outcomes of the
field's rules, in rule-declaration order.  Under `Q.allSettled` the whole
list is kept; under `Q.all` the first-settling rejection surfaces, where a
configuration `Error` settles synchronously and a predicate failure two
microtask hops later (see `cfgReasonOf`/`failedReasonOf`). -/
def validateField (reg : Registry) (mode : Mode) (data : JSValue)
    (messages : List (String × String)) (entry : String × List ParsedRule) :
    List RuleOutcome :=
  entry.2.map fun v =>
    runValidationOnField reg mode data entry.1 v.name messages
      (v.args.map JSValue.str) entry.2

/-- The ordered rejection list computed by `validateAll`'s pipeline
(`_mapValidations` with `runAll`, `_.flatten`, `_settleAllPromises`):
every field in declaration order, every rule in declaration order, keeping
the reasons of the rejected ones. -/
def collectedReasons (reg : Registry) (mode : Mode) (data : JSValue)
    (rules : List (String × String)) (messages : List (String × String)) :
    List Reason :=
  (((Parser.transformRules data rules).map
    (validateField reg mode data messages)).flatten).filterMap reasonOf

/-- `Validator.validate` (lines 145–155), fail-fast: the nested `Q.all`
rejects with the **first-settling** rejection.  A missing-predicate
`Error` rejects its promise synchronously at creation, before any handler
is attached, while a predicate failure reaches its wrapped rejection only
two microtask hops later; rejections of the same kind settle in creation
(field-declaration then rule-declaration) order.  So the race is won by
the first configuration `Error` in declaration order when one exists, and
otherwise by the first predicate failure in declaration order; the `catch`
wraps that single reason in a one-element array.  On success the original
`data` reference is resolved. -/
def validate (reg : Registry) (mode : Mode) (data : JSValue)
    (rules : List (String × String)) (messages : List (String × String)) :
    Except (List Reason) JSValue :=
  match (Parser.transformRules data rules).findSome?
      (fun entry => (validateField reg mode data messages entry).findSome? cfgReasonOf) with
  | some reason => .error [reason]
  | none =>
    match (Parser.transformRules data rules).findSome?
        (fun entry => (validateField reg mode data messages entry).findSome? failedReasonOf) with
    | some reason => .error [reason]
    | none => .ok data

/-- `Validator.validateAll` (lines 167–178), collect-all: every check runs
to completion under `Q.allSettled`; `_settleAllPromises` throws the full
flattened rejection list when non-empty, otherwise the original `data`
reference is resolved. -/
def validateAll (reg : Registry) (mode : Mode) (data : JSValue)
    (rules : List (String × String)) (messages : List (String × String)) :
    Except (List Reason) JSValue :=
  if (collectedReasons reg mode data rules messages).isEmpty then .ok data
  else .error (collectedReasons reg mode data rules messages)

end Validator

/-! ### Helper lemmas -/

theorem isUpper_toNat (c : Char) :
    c.isUpper = (decide (65 ≤ c.toNat) && decide (c.toNat ≤ 90)) := by
  simp [Char.isUpper, Char.toNat, UInt32.le_def, BitVec.le_def, UInt32.toNat]

theorem isLower_toNat (c : Char) :
    c.isLower = (decide (97 ≤ c.toNat) && decide (c.toNat ≤ 122)) := by
  simp [Char.isLower, Char.toNat, UInt32.le_def, BitVec.le_def, UInt32.toNat]

theorem isDigit_toNat (c : Char) :
    c.isDigit = (decide (48 ≤ c.toNat) && decide (c.toNat ≤ 57)) := by
  simp [Char.isDigit, Char.toNat, UInt32.le_def, BitVec.le_def, UInt32.toNat]

theorem toNat_charOfNat (n : Nat) (h : n < 55296) : (Char.ofNat n).toNat = n := by
  unfold Char.ofNat
  rw [dif_pos (Or.inl h : n.isValidChar)]
  rfl

theorem isWordChar_toLower (c : Char) (h : isWordChar c = true) :
    isWordChar c.toLower = true := by
  unfold Char.toLower
  by_cases hc : c.toNat ≥ 65 ∧ c.toNat ≤ 90
  · rw [if_pos hc]
    have hv : (Char.ofNat (c.toNat + 32)).toNat = c.toNat + 32 :=
      toNat_charOfNat _ (by omega)
    simp only [isWordChar, Char.isAlpha, isUpper_toNat, isLower_toNat, isDigit_toNat, hv,
      Bool.or_eq_true, Bool.and_eq_true, decide_eq_true_eq]
    omega
  · rw [if_neg hc]; exact h

theorem isWordChar_toUpper (c : Char) (h : isWordChar c = true) :
    isWordChar c.toUpper = true := by
  unfold Char.toUpper
  by_cases hc : c.toNat ≥ 97 ∧ c.toNat ≤ 122
  · rw [if_pos hc]
    have hv : (Char.ofNat (c.toNat - 32)).toNat = c.toNat - 32 :=
      toNat_charOfNat _ (by omega)
    simp only [isWordChar, Char.isAlpha, isUpper_toNat, isLower_toNat, isDigit_toNat, hv,
      Bool.or_eq_true, Bool.and_eq_true, decide_eq_true_eq]
    omega
  · rw [if_neg hc]; exact h

theorem splitWordsAux_wordChars (cs : List Char) (cur : List Char)
    (hcur : ∀ c ∈ cur, isWordChar c = true) :
    ∀ w ∈ splitWordsAux cs cur, ∀ c ∈ w, isWordChar c = true := by
  induction cs generalizing cur with
  | nil =>
    cases cur with
    | nil => simp [splitWordsAux]
    | cons p ps =>
      simp only [splitWordsAux, List.mem_singleton]
      intro w hw
      subst hw
      intro c hc
      exact hcur c (List.mem_reverse.mp hc)
  | cons c rest ih =>
    cases cur with
    | nil =>
      unfold splitWordsAux
      by_cases hwc : isWordChar c = true
      · rw [if_pos hwc]; exact ih [c] (by simp [hwc])
      · rw [if_neg hwc]; exact ih [] (by simp)
    | cons p ps =>
      unfold splitWordsAux
      by_cases hwc : isWordChar c = true
      · rw [if_pos hwc]
        by_cases hb : breaksWord p c = true
        · rw [if_pos hb]
          intro w hw
          rcases List.mem_cons.mp hw with h1 | h2
          · subst h1
            intro d hd
            exact hcur d (List.mem_reverse.mp hd)
          · exact ih [c] (by simp [hwc]) w h2
        · rw [if_neg hb]
          refine ih (c :: p :: ps) ?_
          intro d hd
          rcases List.mem_cons.mp hd with h1 | h2
          · subst h1; exact hwc
          · exact hcur d h2
      · rw [if_neg hwc]
        intro w hw
        rcases List.mem_cons.mp hw with h1 | h2
        · subst h1
          intro d hd
          exact hcur d (List.mem_reverse.mp hd)
        · exact ih [] (by simp) w h2

theorem upperFirstChars_wordChars (l : List Char)
    (h : ∀ c ∈ l, isWordChar c = true) :
    ∀ c ∈ upperFirstChars l, isWordChar c = true := by
  cases l with
  | nil => simp [upperFirstChars]
  | cons p ps =>
    intro c hc
    rcases List.mem_cons.mp hc with h1 | h2
    · subst h1; exact isWordChar_toUpper p (h p (by simp))
    · exact h c (by simp [h2])

theorem camelCase_wordChars (s : String) :
    ∀ c ∈ (camelCase s).data, isWordChar c = true := by
  unfold camelCase
  cases hs : splitWords s with
  | nil => simp
  | cons w ws =>
    have hall := splitWordsAux_wordChars s.data [] (by simp)
    rw [show splitWordsAux s.data [] = splitWords s from rfl, hs] at hall
    intro c hc
    simp only [String.data] at hc
    rcases List.mem_append.mp hc with h1 | h2
    · rcases List.mem_map.mp h1 with ⟨d, hd, rfl⟩
      exact isWordChar_toLower d (hall w (by simp) d hd)
    · rcases List.mem_flatten.mp h2 with ⟨piece, hpiece, hcp⟩
      rcases List.mem_map.mp hpiece with ⟨x, hx, rfl⟩
      refine upperFirstChars_wordChars _ ?_ c hcp
      intro d hd
      rcases List.mem_map.mp hd with ⟨e, he, rfl⟩
      exact isWordChar_toLower e (hall x (by simp [hx]) e he)

theorem camelCase_no_underscore (s : String) : '_' ∉ (camelCase s).data := by
  intro h
  have := camelCase_wordChars s '_' h
  simp [isWordChar] at this

theorem camelCase_ne_snake (s : String) : camelCase s ≠ "is_phone" := by
  intro h
  apply camelCase_no_underscore s
  rw [h]
  decide

theorem findSome?_eq_head?_filterMap {β γ : Type} (g : β → Option γ) (l : List β) :
    l.findSome? g = (l.filterMap g).head? := by
  induction l with
  | nil => rfl
  | cons b rest ih =>
    rw [List.findSome?_cons, List.filterMap_cons]
    cases hgb : g b with
    | none => simpa using ih
    | some c => simp

theorem findSome?_flatten {α β γ : Type} (f : α → List β) (g : β → Option γ) (l : List α) :
    l.findSome? (fun a => (f a).findSome? g) =
      ((l.map f).flatten.filterMap g).head? := by
  induction l with
  | nil => rfl
  | cons a rest ih =>
    rw [List.findSome?_cons, List.map_cons, List.flatten_cons, List.filterMap_append]
    cases hfa : (f a).findSome? g with
    | none =>
      have hl : (f a).filterMap g = [] :=
        List.head?_eq_none_iff.mp ((findSome?_eq_head?_filterMap g (f a)).symm.trans hfa)
      rw [hl]
      simpa using ih
    | some c =>
      have hl : ((f a).filterMap g).head? = some c :=
        (findSome?_eq_head?_filterMap g (f a)).symm.trans hfa
      cases hfm : (f a).filterMap g with
      | nil => rw [hfm] at hl; simp at hl
      | cons x xs =>
        rw [hfm] at hl
        simp only [List.head?_cons, Option.some.injEq] at hl
        subst hl
        simp [hfm]

theorem filterMap_cfgReasonOf (l : List RuleOutcome) :
    l.filterMap cfgReasonOf = (l.filterMap reasonOf).filter Reason.isCfg := by
  induction l with
  | nil => rfl
  | cons o rest ih =>
    cases o <;> simp [cfgReasonOf, reasonOf, Reason.isCfg, List.filterMap_cons, ih]

theorem filterMap_failedReasonOf (l : List RuleOutcome) :
    l.filterMap failedReasonOf =
      (l.filterMap reasonOf).filter (fun r => !r.isCfg) := by
  induction l with
  | nil => rfl
  | cons o rest ih =>
    cases o <;> simp [failedReasonOf, reasonOf, Reason.isCfg, List.filterMap_cons, ih]

theorem filter_not_eq_self_of_filter_eq_nil {α : Type} (p : α → Bool) (l : List α)
    (h : l.filter p = []) : l.filter (fun a => !p a) = l := by
  induction l with
  | nil => rfl
  | cons a rest ih =>
    rw [List.filter_cons] at h
    by_cases hp : p a = true
    · rw [if_pos hp] at h; simp at h
    · rw [if_neg hp] at h
      have hf : (!p a) = true := by simp [Bool.not_eq_true] at hp ⊢; exact hp
      rw [List.filter_cons, if_pos hf, ih h]

/-! ### Claim theorems -/

/-- Claim C1 counterexample: fail-fast rejection is NOT chosen purely by
declaration order.  `validate({b:1}, {a:'required', b:'foo'})` contains
the failing first-declared rule `a.required`, yet the run rejects with the
configuration `Error` for `b`'s unregistered rule `foo`: that `Error`
rejects its promise synchronously while `a.required`'s rejection settles
two microtask hops later, so it wins `Q.all`'s first-settled race. -/
theorem validate_failFast_race_counterexample :
    Validator.validate builtinValidations .normal (.obj [("b", .num 1)])
        [("a", "required"), ("b", "foo")] [] =
      .error [.cfg "foo is not defined as a validation"] ∧
    Validator.validate builtinValidations .normal (.obj [("b", .num 1)])
        [("a", "required"), ("b", "foo")] [] ≠
      .error [.vErr "a" "required" "required validation failed on a"] := by
  constructor
  · rfl
  · intro h
    rw [show Validator.validate builtinValidations .normal (.obj [("b", .num 1)])
        [("a", "required"), ("b", "foo")] [] =
        Except.error [Reason.cfg "foo is not defined as a validation"] from rfl] at h
    simp at h

/-- Claim C1 (amended): in fail-fast mode, for every data/ruleSpec input
whose run produces no configuration `Error` and contains at least one
failing rule, `validate` rejects with a single-element failure list
holding exactly the first failing rule in field-declaration then
rule-declaration order — the head of the ordered rejection list of the
collect-all pipeline.  (When a configuration `Error` is present, its
synchronous rejection wins the settlement race regardless of declaration
order; see the counterexample.) -/
theorem validate_failFast_first_failure (reg : Registry) (mode : Mode)
    (data : JSValue) (rules : List (String × String))
    (messages : List (String × String))
    (hcfg : (Validator.collectedReasons reg mode data rules messages).filter
      Reason.isCfg = [])
    (h : 0 < (Validator.collectedReasons reg mode data rules messages).length) :
    Validator.validate reg mode data rules messages =
      .error ((Validator.collectedReasons reg mode data rules messages).take 1) := by
  unfold Validator.validate
  rw [findSome?_flatten, findSome?_flatten, filterMap_cfgReasonOf, filterMap_failedReasonOf]
  have hc : (((Parser.transformRules data rules).map
      (Validator.validateField reg mode data messages)).flatten).filterMap reasonOf =
      Validator.collectedReasons reg mode data rules messages := rfl
  rw [hc, hcfg, filter_not_eq_self_of_filter_eq_nil _ _ hcfg]
  cases he : Validator.collectedReasons reg mode data rules messages with
  | nil => rw [he] at h; simp at h
  | cons r rest => simp

/-- Claim C1 witness: `validate({username:"aman@33$"}, {username:"alpha|alphaNumeric"})`
produces no configuration `Error`, and rejects with exactly one error, for
the `alpha` rule, never reporting `alphaNumeric`. -/
theorem validate_failFast_first_failure_witness :
    (Validator.collectedReasons builtinValidations .normal
        (.obj [("username", .str "aman@33$")])
        [("username", "alpha|alphaNumeric")] []).filter Reason.isCfg = [] ∧
    0 < (Validator.collectedReasons builtinValidations .normal
          (.obj [("username", .str "aman@33$")])
          [("username", "alpha|alphaNumeric")] []).length ∧
    Validator.validate builtinValidations .normal
        (.obj [("username", .str "aman@33$")])
        [("username", "alpha|alphaNumeric")] [] =
      .error [.vErr "username" "alpha" "alpha validation failed on username"] := by
  refine ⟨by decide, by decide, ?_⟩
  have h := validate_failFast_first_failure builtinValidations .normal
    (.obj [("username", .str "aman@33$")]) [("username", "alpha|alphaNumeric")] []
    (by decide) (by decide)
  exact h.trans (by rfl)

/-- Claim C2: in collect-all mode every check of every field settles; when
the ordered rejection list is non-empty `validateAll` rejects with that
full list (field-declaration order, then rule-declaration order), and when
it is empty it resolves with the original `data`. -/
theorem validateAll_collects_ordered_failures (reg : Registry) (mode : Mode)
    (data : JSValue) (rules : List (String × String))
    (messages : List (String × String)) :
    (Validator.collectedReasons reg mode data rules messages ≠ [] →
      Validator.validateAll reg mode data rules messages =
        .error (Validator.collectedReasons reg mode data rules messages)) ∧
    (Validator.collectedReasons reg mode data rules messages = [] →
      Validator.validateAll reg mode data rules messages = .ok data) := by
  unfold Validator.validateAll
  constructor
  · intro h
    rw [if_neg (by simpa [List.isEmpty_iff] using h)]
  · intro h
    rw [if_pos (by simpa [List.isEmpty_iff] using h)]

/-- Claim C2 witness: `validateAll({}, {age:"required", phone:"required"})`
rejects with exactly two ordered errors, `age` first then `phone`. -/
theorem validateAll_collects_ordered_failures_witness :
    Validator.collectedReasons builtinValidations .normal (.obj [])
        [("age", "required"), ("phone", "required")] [] ≠ [] ∧
    Validator.validateAll builtinValidations .normal (.obj [])
        [("age", "required"), ("phone", "required")] [] =
      .error [.vErr "age" "required" "required validation failed on age",
              .vErr "phone" "required" "required validation failed on phone"] := by
  refine ⟨by decide, ?_⟩
  have h := (validateAll_collects_ordered_failures builtinValidations .normal (.obj [])
    [("age", "required"), ("phone", "required")] []).1 (by decide)
  exact h.trans (by rfl)

/-- Claim C3: whenever every check passes (the collected rejection list is
empty), both `validate` and `validateAll` resolve with the original `data`
value itself — the embedding is pure, so the data is never mutated, pruned,
reordered or rebuilt. -/
theorem validation_success_returns_original_data (reg : Registry) (mode : Mode)
    (data : JSValue) (rules : List (String × String))
    (messages : List (String × String))
    (h : Validator.collectedReasons reg mode data rules messages = []) :
    Validator.validate reg mode data rules messages = .ok data ∧
    Validator.validateAll reg mode data rules messages = .ok data := by
  constructor
  · unfold Validator.validate
    rw [findSome?_flatten, findSome?_flatten, filterMap_cfgReasonOf, filterMap_failedReasonOf]
    have hc : (((Parser.transformRules data rules).map
        (Validator.validateField reg mode data messages)).flatten).filterMap reasonOf =
        Validator.collectedReasons reg mode data rules messages := rfl
    rw [hc, h]
    rfl
  · unfold Validator.validateAll
    rw [if_pos (by simp [h, List.isEmpty_iff])]

/-- Claim C3 witness: a passing run returns the original data object. -/
theorem validation_success_returns_original_data_witness :
    Validator.collectedReasons builtinValidations .normal
        (.obj [("age", .num 22), ("phone", .num 9192910200)])
        [("age", "required"), ("phone", "required")] [] = [] ∧
    Validator.validate builtinValidations .normal
        (.obj [("age", .num 22), ("phone", .num 9192910200)])
        [("age", "required"), ("phone", "required")] [] =
      .ok (.obj [("age", .num 22), ("phone", .num 9192910200)]) ∧
    Validator.validateAll builtinValidations .normal
        (.obj [("age", .num 22), ("phone", .num 9192910200)])
        [("age", "required"), ("phone", "required")] [] =
      .ok (.obj [("age", .num 22), ("phone", .num 9192910200)]) := by
  have h := validation_success_returns_original_data builtinValidations .normal
    (.obj [("age", .num 22), ("phone", .num 9192910200)])
    [("age", "required"), ("phone", "required")] [] (by decide)
  exact ⟨by decide, h.1, h.2⟩

/-- Claim C4 (code bug evidence): after `setMode("strict")` the engine-level
`Validator.skippable` returns true for **every** field — its strict branch
tests `typeof value === 'undefined'` against an undeclared identifier — so
a non-implicit rule on a field whose value is the empty string IS skipped,
and `validate` resolves instead of running the `array` predicate against
the empty string. -/
theorem strict_mode_skips_every_nonimplicit_rule :
    Modes.set "strict" .normal = .strict ∧
    (∀ (data : JSValue) (field : String) (vals : List ParsedRule),
        Validator.skippable .strict data field vals = true) ∧
    Validator.validate builtinValidations .strict (.obj [("select", .str "")])
        [("select", "array")] [] = .ok (.obj [("select", .str "")]) :=
  ⟨rfl, fun _ _ _ => rfl, rfl⟩

/-- Claim C5 counterexample: a validation run referencing the unregistered
rule `foo` does **not** always reject — when the field is skippable (here
`age` is absent) the run resolves successfully, because the skip check
fires before the missing predicate would be invoked. -/
theorem unregistered_rule_not_always_rejected :
    Validator.validate builtinValidations .normal (.obj []) [("age", "foo")] [] =
      .ok (.obj []) := rfl

/-- Claim C5 (amended): when the referenced field is validatable, `validate`
on `{age:"foo"}` rejects with a one-element list holding the configuration
`Error` naming `foo` — a shape distinct from a `ValidationError` — and no
per-field validation errors accompany it. -/
theorem unregistered_rule_rejects_config_error (mode : Mode) (data : JSValue)
    (messages : List (String × String))
    (h : Validator.isValidatable mode data "age" [⟨"foo", []⟩] = true) :
    Validator.validate builtinValidations mode data [("age", "foo")] messages =
      .error [.cfg "foo is not defined as a validation"] := by
  unfold Validator.validate
  have ht : Parser.transformRules data [("age", "foo")] =
      [("age", [⟨"foo", []⟩])] := rfl
  rw [ht]
  unfold Validator.validateField Validator.runValidationOnField
  simp only [List.map_cons, List.map_nil, List.findSome?_cons]
  rw [if_neg (by rw [h]; simp)]
  rfl

/-- Claim C5 witness: with `age` present (value 22) the run rejects with the
single configuration error. -/
theorem unregistered_rule_rejects_config_error_witness :
    Validator.isValidatable .normal (.obj [("age", .num 22)]) "age"
        [⟨"foo", []⟩] = true ∧
    Validator.validate builtinValidations .normal (.obj [("age", .num 22)])
        [("age", "foo")] [] =
      .error [.cfg "foo is not defined as a validation"] :=
  ⟨rfl, unregistered_rule_rejects_config_error .normal (.obj [("age", .num 22)]) [] rfl⟩

/-- Claim C6: in normal mode a non-implicit check is skipped exactly when
the field's value is absent (`undefined`), or the empty string, or exactly
`null` while the rule list contains `nullable`; and a skipped check (in any
mode, for any registry) settles as `"validation skipped"` — it contributes
no error and no predicate is ever invoked. -/
theorem normal_mode_skip_characterisation (data : JSValue) (field : String)
    (vals : List ParsedRule) (h : Validator.isImplicit vals = false) :
    (Validator.isValidatable .normal data field vals = false ↔
      (data.getValue field = .undef ∨ data.getValue field = .str "" ∨
        (data.getValue field = .null ∧ Validator.hasRule vals ["nullable"] = true))) ∧
    (∀ (reg : Registry) (mode : Mode) (validation : String)
        (messages : List (String × String)) (args : List JSValue),
        Validator.isValidatable mode data field vals = false →
        Validator.runValidationOnField reg mode data field validation messages args vals =
          .resolved "validation skipped") := by
  constructor
  · unfold Validator.isValidatable Validator.skippable
    rw [h]
    cases hv : data.getValue field with
    | undef => simp
    | null => cases hn : Validator.hasRule vals ["nullable"] <;> simp [hn]
    | str s =>
      simp only [Bool.false_or, Bool.not_eq_eq_eq_not, Bool.not_false, String.isEmpty_iff]
      constructor
      · intro hs; exact Or.inr (Or.inl (by rw [hs]))
      · rintro (h1 | h1 | ⟨h1, _⟩) <;> simp_all
    | num n => simp
    | bool b => simp
    | arr xs => simp
    | obj fs => simp
  · intro reg mode validation messages args hskip
    unfold Validator.runValidationOnField
    rw [hskip]
    rfl

/-- Claim C6 witness: the empty-string field `select` with the `array` rule
is skipped in normal mode, settling as `"validation skipped"` for any
registry. -/
theorem normal_mode_skip_characterisation_witness :
    Validator.isImplicit [(⟨"array", []⟩ : ParsedRule)] = false ∧
    (Validator.isValidatable .normal (.obj [("select", .str "")]) "select"
        [⟨"array", []⟩] = false ↔
      (JSValue.getValue (.obj [("select", .str "")]) "select" = .undef ∨
        JSValue.getValue (.obj [("select", .str "")]) "select" = .str "" ∨
        (JSValue.getValue (.obj [("select", .str "")]) "select" = .null ∧
          Validator.hasRule [⟨"array", []⟩] ["nullable"] = true))) ∧
    Validator.runValidationOnField builtinValidations .normal
        (.obj [("select", .str "")]) "select" "array" [] [] [⟨"array", []⟩] =
      .resolved "validation skipped" := by
  have h := normal_mode_skip_characterisation (.obj [("select", .str "")]) "select"
    [⟨"array", []⟩] (by decide)
  exact ⟨by decide, h.1, h.2 builtinValidations .normal "array" [] [] (by decide)⟩

/-- Claim C7: `range` (and its alias `between`) rejects with the fixed
message `min and max values are required for range validation` whenever
either bound is not truthy (missing, `null`, or the number `0`), before the
skippable check — regardless of the field's value. -/
theorem range_requires_truthy_bounds :
    (∀ (mode : Mode) (data : JSValue) (field message : String)
        (args : List JSValue) (vals : List ParsedRule),
        ((args.getD 0 .undef).jsTruthy = false ∨ (args.getD 1 .undef).jsTruthy = false) →
        Validations.range mode data field message args vals =
          .error "min and max values are required for range validation") ∧
    Validations.between = Validations.range := by
  refine ⟨?_, rfl⟩
  intro mode data field message args vals h
  unfold Validations.range
  have hc : (!(args.getD 0 .undef).jsTruthy || !(args.getD 1 .undef).jsTruthy) = true := by
    rcases h with h | h <;> rw [h] <;> simp
  rw [if_pos hc]

/-- Claim C7 witness: a zero minimum bound (and a `null` bound) trigger the
fixed configuration message even though the field is present and valid. -/
theorem range_requires_truthy_bounds_witness :
    ((([(.num 0 : JSValue), .num 10]).getD 0 .undef).jsTruthy = false ∨
      (([(.num 0 : JSValue), .num 10]).getD 1 .undef).jsTruthy = false) ∧
    Validations.range .normal (.obj [("age", .num 5)]) "age" "msg"
        [.num 0, .num 10] [⟨"numeric", []⟩] =
      .error "min and max values are required for range validation" ∧
    Validations.range .normal (.obj []) "age" "msg" [.null, .num 60] [] =
      .error "min and max values are required for range validation" := by
  refine ⟨Or.inl rfl, ?_, ?_⟩
  · exact range_requires_truthy_bounds.1 .normal (.obj [("age", .num 5)]) "age" "msg"
      [.num 0, .num 10] [⟨"numeric", []⟩] (Or.inl rfl)
  · exact range_requires_truthy_bounds.1 .normal (.obj []) "age" "msg"
      [.null, .num 60] [] (Or.inl rfl)

/-- Claim C8: wildcard field paths expand against the data into concrete
indexed paths in natural index order before validation:
`{"person.*.firstname":"required"}` over a one-element array yields the
concrete entry `person.0.firstname` and a rejection naming that path; with
two elements the second element's failure path is `person.1.firstname`,
and when both fail, index 0's error precedes index 1's. -/
theorem wildcard_expansion_concrete_indexed_paths :
    Parser.transformRules (.obj [("person", .arr [.obj [("firstname", .null)]])])
        [("person.*.firstname", "required")] =
      [("person.0.firstname", [⟨"required", []⟩])] ∧
    Validator.validateAll builtinValidations .normal
        (.obj [("person", .arr [.obj [("firstname", .null)]])])
        [("person.*.firstname", "required")] [] =
      .error [.vErr "person.0.firstname" "required"
        "required validation failed on person.0.firstname"] ∧
    Validator.validate builtinValidations .normal
        (.obj [("person", .arr [.obj [("firstname", .str "virk")],
                                .obj [("firstname", .null)]])])
        [("person.*.firstname", "required")] [] =
      .error [.vErr "person.1.firstname" "required"
        "required validation failed on person.1.firstname"] ∧
    Validator.validateAll builtinValidations .normal
        (.obj [("person", .arr [.obj [("firstname", .null)],
                                .obj [("firstname", .null)]])])
        [("person.*.firstname", "required")] [] =
      .error [.vErr "person.0.firstname" "required"
          "required validation failed on person.0.firstname",
        .vErr "person.1.firstname" "required"
          "required validation failed on person.1.firstname"] :=
  ⟨rfl, rfl, rfl, rfl⟩

/-- Claim C9: the `same` and `different` validations settle as skipped —
the comparison is never performed and no error is produced — whenever the
targeted counterpart field's value is **any** falsy value (`undefined`,
`null`, `0`, the empty string, `false`), for every field value and every
mode. -/
theorem same_different_skip_falsy_target (mode : Mode) (data : JSValue)
    (field message tf : String) (rest : List JSValue) (vals : List ParsedRule)
    (h : (data.getValue tf).jsTruthy = false) :
    Validations.same mode data field message (.str tf :: rest) vals =
      .ok "validation skipped" ∧
    Validations.different mode data field message (.str tf :: rest) vals =
      .ok "validation skipped" := by
  constructor
  · unfold Validations.same
    simp only [List.getD_cons_zero, JSValue.jsToString, h, Bool.not_false, if_pos]
  · unfold Validations.different
    simp only [List.getD_cons_zero, JSValue.jsToString, h, Bool.not_false, if_pos]

/-- Claim C9 witness: counterpart values `0`, `""`, `false` and `null` each
cause the check to be skipped even though the field itself holds a value. -/
theorem same_different_skip_falsy_target_witness :
    (JSValue.getValue (.obj [("a", .num 0), ("b", .str ""), ("c", .bool false),
        ("d", .null), ("f", .str "x")]) "a").jsTruthy = false ∧
    Validations.same .normal (.obj [("a", .num 0), ("b", .str ""), ("c", .bool false),
        ("d", .null), ("f", .str "x")]) "f" "msg" [.str "a"] [] =
      .ok "validation skipped" ∧
    Validations.different .normal (.obj [("a", .num 0), ("b", .str ""), ("c", .bool false),
        ("d", .null), ("f", .str "x")]) "f" "msg" [.str "b"] [] =
      .ok "validation skipped" ∧
    Validations.same .normal (.obj [("a", .num 0), ("b", .str ""), ("c", .bool false),
        ("d", .null), ("f", .str "x")]) "f" "msg" [.str "c"] [] =
      .ok "validation skipped" ∧
    Validations.different .normal (.obj [("a", .num 0), ("b", .str ""), ("c", .bool false),
        ("d", .null), ("f", .str "x")]) "f" "msg" [.str "d"] [] =
      .ok "validation skipped" := by
  refine ⟨rfl, ?_, ?_, ?_, ?_⟩
  · exact (same_different_skip_falsy_target .normal
      (.obj [("a", .num 0), ("b", .str ""), ("c", .bool false), ("d", .null), ("f", .str "x")])
      "f" "msg" "a" [] [] rfl).1
  · exact (same_different_skip_falsy_target .normal
      (.obj [("a", .num 0), ("b", .str ""), ("c", .bool false), ("d", .null), ("f", .str "x")])
      "f" "msg" "b" [] [] rfl).2
  · exact (same_different_skip_falsy_target .normal
      (.obj [("a", .num 0), ("b", .str ""), ("c", .bool false), ("d", .null), ("f", .str "x")])
      "f" "msg" "c" [] [] rfl).1
  · exact (same_different_skip_falsy_target .normal
      (.obj [("a", .num 0), ("b", .str ""), ("c", .bool false), ("d", .null), ("f", .str "x")])
      "f" "msg" "d" [] [] rfl).2

/-- Claim C10: predicate lookup camel-cases the referenced rule name before
consulting the validations store, while `extend` stores the predicate under
the given name verbatim.  Hence a predicate extended as `isPhone` is
reachable from both `is_phone` and `isPhone` rule strings, while a
predicate registered under `is_phone` is unreachable from **every** rule
string (no camel-cased name contains an underscore), and referencing it
raises the `is not defined as a validation` configuration error. -/
theorem extend_verbatim_lookup_camelcase :
    (∀ (reg : Registry) (name : String) (f : PredFn),
        lookupReg (Validator.extend reg name f) name = some f) ∧
    (∀ f : PredFn,
        Validator.getValidationMethod (Validator.extend builtinValidations "isPhone" f)
            "is_phone" = some f ∧
        Validator.getValidationMethod (Validator.extend builtinValidations "isPhone" f)
            "isPhone" = some f) ∧
    (∀ s : String, camelCase s ≠ "is_phone") ∧
    (∀ (f : PredFn) (s : String),
        Validator.getValidationMethod (Validator.extend builtinValidations "is_phone" f) s =
          Validator.getValidationMethod builtinValidations s) ∧
    (∀ f : PredFn,
        Validator.runValidationOnField (Validator.extend builtinValidations "is_phone" f)
            .normal (.obj [("contact_no", .num 1)]) "contact_no" "is_phone" [] []
            [⟨"is_phone", []⟩] =
          .cfgError "is_phone is not defined as a validation") := by
  refine ⟨?_, ?_, camelCase_ne_snake, ?_, ?_⟩
  · intro reg name f
    unfold Validator.extend lookupReg
    rw [if_pos rfl]
  · intro f
    exact ⟨rfl, rfl⟩
  · intro f s
    show lookupReg (("is_phone", f) :: builtinValidations) (camelCase s) =
      Validator.getValidationMethod builtinValidations s
    rw [show lookupReg (("is_phone", f) :: builtinValidations) (camelCase s) =
        if camelCase s = "is_phone" then some f
        else lookupReg builtinValidations (camelCase s) from rfl]
    rw [if_neg (camelCase_ne_snake s)]
    rfl
  · intro f
    rfl
